import Mathlib

/-!
Shallow embedding of the `vector-memory` repository: the RxDB-backed
similarity store (`src/vector/rxdb.ts`) and the memory reconciliation
engine (`MemoryStore`, `src/unnamed/part_001`), together with proofs of
the specification claims about them.

Conventions of the embedding:
* `number` values that feed distance comparisons are modelled as `ℤ`:
  the claims about search are order-theoretic and every theorem about it
  is parametric in the distance function, so only the ordered-ring
  structure of the scalars matters.
* JavaScript `undefined` flowing through a typed hole (e.g. a map lookup
  that misses) is modelled as `Option`.
* The asynchronous store is modelled as a pure state-passing value
  `VStore`; `Date.now()` is the field `now`, and `crypto.randomUUID()` is
  modelled as a deterministic supply of fresh identifiers `freshId`
  driven by the counter field `nextId` (the engine treats identifiers as
  opaque, so only freshness matters).
* JavaScript's stable `Array.prototype.sort` is modelled by
  `List.insertionSort`, which is the stable sort.
-/

namespace VectorMemory

/-- Type `Embedding` from `src/embeddings`: `number[]`. -/
abbrev Embedding := List ℤ

/-- Metadata `Record<string, any>`, modelled as an association list. -/
abbrev Metadata := List (String × String)

/-- Type `EmbeddingResult` from `src/vector/vector.ts`. `createdAt` is a required
field of the TypeScript type, but `RxDbVector.update` returns a runtime
object that carries neither `createdAt` nor `updatedAt`, so both are
modelled as `Option` to capture the runtime shape faithfully. Records held
by the store always have `createdAt = some _`. -/
structure EmbeddingResult where
  id : String
  embedding : Embedding
  content : String
  metadata : Metadata
  createdAt : Option ℕ
  updatedAt : Option ℕ
  deriving Repr, DecidableEq

/-- Type `Entry` from `src/vector/vector.ts` (input of `VectorStore.add`). -/
structure Entry where
  embedding : Embedding
  content : String
  metadata : Option Metadata
  deriving Repr, DecidableEq

/-- The state of `RxDbVector` (`src/vector/rxdb.ts`): the stored documents,
plus the fresh-identifier supply and the current clock reading. -/
structure VStore where
  records : List EmbeddingResult
  nextId : ℕ
  now : ℕ
  deriving Repr, DecidableEq

/-- Deterministic model of `crypto.randomUUID()`. -/
def freshId (n : ℕ) : String := "uuid-" ++ toString n

/-- Model of `RxDbVector.get`: `findOne(id).exec()`, `null` when absent. An `Option`
argument covers an identifier that arrived as JavaScript `undefined` (a
missed map lookup upstream): no stored document has an undefined primary
key, so nothing is found. -/
def vGet (s : VStore) (mid : Option String) : Option EmbeddingResult :=
  match mid with
  | none => none
  | some i => s.records.find? (fun r => r.id == i)

/-- Model of `RxDbVector.add`: assigns a fresh id and `createdAt := Date.now()` to
each entry, defaults metadata to `{}`, bulk-inserts, and returns the
created records. (The `bulkInsert` duplicate-key error path cannot fire:
the ids come from the fresh supply.) -/
def vAdd (s : VStore) (entries : List Entry) : List EmbeddingResult × VStore :=
  let values := entries.enum.map fun p =>
    ({ id := freshId (s.nextId + p.1), embedding := p.2.embedding,
       content := p.2.content, metadata := p.2.metadata.getD [],
       createdAt := some s.now, updatedAt := none } : EmbeddingResult)
  (values, { s with records := s.records ++ values, nextId := s.nextId + entries.length })

/-- Input of `VectorStore.update`: `UpdateableEmbeddingResult`
(`EmbeddingResult` without `createdAt`/`updatedAt`). -/
structure UpdateInput where
  id : String
  embedding : Embedding
  content : String
  metadata : Metadata
  deriving Repr, DecidableEq

/-- Model of `RxDbVector.update`: finds the document by id (`none` models the
`throw` when it is absent), `$set`s content, embedding, metadata and
`updatedAt := Date.now()` on it, and returns **its argument** (the source
ends with `return embedding`), i.e. an object without timestamp fields.
The primary key is unique, so the map touches at most one document. -/
def vUpdate (s : VStore) (u : UpdateInput) : Option (EmbeddingResult × VStore) :=
  match s.records.find? (fun r => r.id == u.id) with
  | none => none
  | some _ => some
      ({ id := u.id, embedding := u.embedding, content := u.content,
         metadata := u.metadata, createdAt := none, updatedAt := none },
       { s with records := s.records.map fun r =>
          if r.id == u.id then
            { r with content := u.content, embedding := u.embedding,
                     metadata := u.metadata, updatedAt := some s.now }
          else r })

/-- Model of `RxDbVector.delete`: finds the document by id; returns unchanged when
absent (also when the id arrived as `undefined`), otherwise removes it.
The primary key is unique, so removing the found document is removing
every document with that id. -/
def vDelete (s : VStore) (mid : Option String) : VStore :=
  match mid with
  | none => s
  | some i =>
    match s.records.find? (fun r => r.id == i) with
    | none => s
    | some _ => { s with records := s.records.filter fun r => !(r.id == i) }

/-- Model of `RxDbVector.search`, parametric in the distance function (the external
`euclideanDistance` of `rxdb/plugins/vector`). The `find().exec()` scan
delivers the documents in primary-key order — RxDB normalizes a sort-less
Mango query by adding `sort: [{id: 'asc'}]` — so the scan is a function of
the record set, not of insertion order. Each document is paired with its
distance to the query and those within `threshold` are kept; RxDB's
`sortByObjectNumberProperty("distance")` is the **descending** comparator
`(a, b) => b[prop] - a[prop]` (stable), so the sort puts the farthest
first, `toReversed()` then yields ascending distance, and `slice(0, topK)`
keeps the closest `topK`, closest-first. -/
def vSearch (dist : Embedding → Embedding → ℤ) (s : VStore) (embedding : Embedding)
    (topK : ℕ) (threshold : ℤ) : List EmbeddingResult :=
  let vectors := s.records.insertionSort fun a b => a.id ≤ b.id
  let distances := vectors.map fun doc => (doc, dist embedding doc.embedding)
  let results :=
    (((distances.filter fun r => decide (r.2 ≤ threshold)).insertionSort
        fun a b => b.2 ≤ a.2).reverse).take topK
  results.map (·.1)

/-- Squared Euclidean distance, the executable stand-in for the external
`euclideanDistance` of `rxdb/plugins/vector` (which involves a square
root); squaring is strictly monotone on nonnegative distances, so order
and threshold comparisons at `threshold = 1` coincide. Used only to
instantiate the parametric theorems at concrete inputs. -/
def euclideanDistanceSq (a b : Embedding) : ℤ :=
  (a.zipWith (fun x y => (x - y) * (x - y)) b).sum

/-- Model of `RxDbVector.list`: optional `$gte` selector on the id (sent only when
the cursor is truthy, so an empty-string cursor is ignored), ascending
sort by id, and a limit applied only when truthy (a limit of `0` is
falsy and is ignored). -/
def vList (s : VStore) (cursor : Option String) (limit : Option ℕ) : List EmbeddingResult :=
  let selected :=
    match cursor with
    | some c => if c = "" then s.records else s.records.filter fun r => decide (c ≤ r.id)
    | none => s.records
  let sorted := selected.insertionSort fun a b => a.id ≤ b.id
  match limit with
  | none => sorted
  | some l => if l = 0 then sorted else sorted.take l

/-! ### The memory reconciliation engine (`MemoryStore`, `src/unnamed/part_001`) -/

/-- Enum `UpdateMemoryAction` (imported by the engine from its prompts module). -/
inductive UpdateMemoryAction
  | ADD | UPDATE | DELETE | NONE
  deriving Repr, DecidableEq

/-- One element of the Decision Service's `actions` array:
`{ id, text, action }`. -/
structure MemoryAction where
  id : String
  text : String
  action : UpdateMemoryAction
  deriving Repr, DecidableEq

/-- Model of `MemoryStore.addMemory`: reuse the call-scoped embedding cache when
`content in existingEmbeddings`, else call the embedder; then
`vector.add` one entry. The third component reports whether the embedder
was called. The embedder is modelled as a function fixed for the call, so
a cache hit and a fresh call at the same text agree in value. -/
def addMemory (embed : String → Embedding) (existingEmbeddings : List (String × Embedding))
    (content : String) (metadata : Option Metadata) (s : VStore) :
    List EmbeddingResult × VStore × Bool :=
  let cached := existingEmbeddings.lookup content
  let embeddings := cached.getD (embed content)
  let (memory, s') := vAdd s [{ embedding := embeddings, content := content, metadata := metadata }]
  (memory, s', cached.isNone)

/-- Model of `MemoryStore.updateMemory`: `vector.get(memoryId)` first — `null`
makes it return `null` (first component `none`) before any embedding or
store call. `memoryId` is `Option` because the caller passes a raw
`tempIdMappings[action.id]` lookup, which is `undefined` when the key was
never issued; `get` finds nothing for it. Otherwise the embedding is the
cached one when `existingEmbeddings[content]` is present (the values are
arrays, hence always truthy), else freshly computed, and `vector.update`
is called. The third component reports whether the embedder was called. -/
def updateMemory (embed : String → Embedding) (existingEmbeddings : List (String × Embedding))
    (memoryId : Option String) (content : String) (metadata : Metadata) (s : VStore) :
    Option EmbeddingResult × VStore × Bool :=
  match memoryId with
  | none => (none, s, false)
  | some mid =>
    match vGet s (some mid) with
    | none => (none, s, false)
    | some _ =>
      let cached := existingEmbeddings.lookup content
      let embedding := cached.getD (embed content)
      match vUpdate s { id := mid, embedding := embedding,
                        content := content, metadata := metadata } with
      | some (memory, s') => (some memory, s', cached.isNone)
      | none => (none, s, cached.isNone)

/-- The retrieval loop of `MemoryStore.add` (steps over `newRetrievedFacts`):
embed each fact, record it in `newMessageEmbeddings`, search the store with
the fact's embedding (default options `topK = 5`, `threshold = 1`), and
append every hit to `retrievedOldMemory`. Written as structural recursion
equivalent to the source's `for` loop; the cache is an association list
whose lookup agrees with the source's object because duplicate fact keys
carry identical embeddings. -/
def retrieveOldMemory (dist : Embedding → Embedding → ℤ) (embed : String → Embedding)
    (s : VStore) : List String → List (String × Embedding) × List EmbeddingResult
  | [] => ([], [])
  | fact :: rest =>
    let factEmbedding := embed fact
    let existingMemories := vSearch dist s factEmbedding 5 1
    let (cache, old) := retrieveOldMemory dist embed s rest
    ((fact, factEmbedding) :: cache, existingMemories ++ old)

/-- The `tempIdMappings` table of `MemoryStore.add`: position `i` of the
candidate set, keyed as the decimal string `String(i)`, maps to that
candidate's persisted identifier (read before the in-place remapping). -/
def tempIdMappings (retrievedOldMemory : List EmbeddingResult) : List (String × String) :=
  retrievedOldMemory.enum.map fun p => (toString p.1, p.2.id)

/-- The in-place id remapping of `MemoryStore.add`:
`retrievedOldMemory[i].id = String(i)`, applied to the copies handed to
the Decision Service. -/
def remapIds (retrievedOldMemory : List EmbeddingResult) : List EmbeddingResult :=
  retrievedOldMemory.enum.map fun p => { p.2 with id := toString p.1 }

/-- Modelled from the spec: the Decision Service request built by
`getUpdateMemoryPrompt` (the prompts module is not under `src/`): it
carries the new facts and the candidate set under temporary identifiers
(spec section 6: request `{ newFacts, oldMemory }`). -/
structure DecisionRequest where
  newRetrievedFacts : List String
  oldMemory : List EmbeddingResult
  deriving Repr, DecidableEq

/-- The action-application loop of `MemoryStore.add` (its step 5), with
the store threaded through and `returnedMemories` accumulated in `acc`.
The `Bool` result is `true` exactly when the loop threw
`Error("Memory not found")`: an UPDATE whose `updateMemory` returned
`null`. On that throw the remaining actions are not examined and the
store and accumulator reached so far are returned as they stand. -/
def applyActions (embed : String → Embedding) (existingEmbeddings : List (String × Embedding))
    (tempIds : List (String × String)) (s : VStore) (acc : List EmbeddingResult) :
    List MemoryAction → VStore × List EmbeddingResult × Bool
  | [] => (s, acc, false)
  | a :: rest =>
    match a.action with
    | .ADD =>
      let (memory, s', _) := addMemory embed existingEmbeddings a.text none s
      applyActions embed existingEmbeddings tempIds s' (acc ++ memory) rest
    | .UPDATE =>
      match updateMemory embed existingEmbeddings (tempIds.lookup a.id) a.text [] s with
      | (none, s', _) => (s', acc, true)
      | (some memory, s', _) =>
        applyActions embed existingEmbeddings tempIds s' (acc ++ [memory]) rest
    | .DELETE =>
      let s' := vDelete s (tempIds.lookup a.id)
      applyActions embed existingEmbeddings tempIds s' acc rest
    | .NONE => applyActions embed existingEmbeddings tempIds s acc rest

/-- Everything one run of `MemoryStore.add` produces or sends out:
the Decision Service request, the candidate set, the temporary-identifier
table, the value returned to the caller, the final store, and whether the
call aborted with the NotFound-class error. -/
structure AddTrace where
  request : DecisionRequest
  retrievedOldMemory : List EmbeddingResult
  tempIds : List (String × String)
  returnedMemories : List EmbeddingResult
  store : VStore
  errored : Bool
  deriving Repr, DecidableEq

/-- Model of `MemoryStore.add`, parameterised by the collaborator responses the
source obtains over the network: `newRetrievedFacts` is the Extraction
Service's fact list and `actions` the Decision Service's action list;
`embed` is the Embedding Provider and `dist` the store's metric. -/
def MemoryStore.add (dist : Embedding → Embedding → ℤ) (embed : String → Embedding)
    (newRetrievedFacts : List String) (actions : List MemoryAction) (s : VStore) : AddTrace :=
  let (newMessageEmbeddings, retrievedOld) := retrieveOldMemory dist embed s newRetrievedFacts
  let tmp := tempIdMappings retrievedOld
  let (s', returned, errored) := applyActions embed newMessageEmbeddings tmp s [] actions
  { request := { newRetrievedFacts := newRetrievedFacts, oldMemory := remapIds retrievedOld }
    retrievedOldMemory := retrievedOld
    tempIds := tmp
    returnedMemories := returned
    store := s'
    errored := errored }

/-- Model of `MemoryStore.search`: embed the content and delegate to the store's
search with its default options. -/
def MemoryStore.search (dist : Embedding → Embedding → ℤ) (embed : String → Embedding)
    (content : String) (s : VStore) : List EmbeddingResult :=
  vSearch dist s (embed content) 5 1

/-- Model of `MemoryStore.list`: it forwards its `{offset, limit}` props object to
`vector.list`, which reads only the `cursor` and `limit` properties; the
forwarded object has no `cursor` property, so the cursor is `undefined`
and only the limit takes effect. -/
def MemoryStore.list (s : VStore) (props : Option (ℕ × ℕ)) : List EmbeddingResult :=
  match props with
  | none => vList s none none
  | some p => vList s none (some p.2)

/-! ### Concrete fixtures used by witnesses and counterexamples -/

/-- A stored record at squared distance `0` from the query `[0]`. -/
def recClose : EmbeddingResult :=
  { id := "a", embedding := [0], content := "close", metadata := [],
    createdAt := some 1, updatedAt := none }

/-- A stored record at squared distance `1` from the query `[0]`. -/
def recFar : EmbeddingResult :=
  { id := "b", embedding := [1], content := "far", metadata := [],
    createdAt := some 2, updatedAt := none }

/-- A store holding `recClose` and `recFar`. -/
def storeCloseFar : VStore := { records := [recClose, recFar], nextId := 0, now := 100 }

/-- A record tied with `recTieB` at distance `0` from the query `[0]`. -/
def recTieA : EmbeddingResult :=
  { id := "a", embedding := [0], content := "x", metadata := [],
    createdAt := some 1, updatedAt := none }

/-- A record tied with `recTieA` at distance `0` from the query `[0]`. -/
def recTieB : EmbeddingResult :=
  { id := "b", embedding := [0], content := "y", metadata := [],
    createdAt := some 2, updatedAt := none }

/-- The tied records in one insertion order. -/
def storeTieAB : VStore := { records := [recTieA, recTieB], nextId := 0, now := 0 }

/-- The tied records in the other insertion order. -/
def storeTieBA : VStore := { records := [recTieB, recTieA], nextId := 0, now := 0 }

/-- The new fact text of the end-to-end update scenario. -/
def parisText : String := "lives in Paris"

/-- The pre-existing record of the end-to-end update scenario. -/
def berlinRec : EmbeddingResult :=
  { id := "m1", embedding := [0], content := "lives in Berlin", metadata := [],
    createdAt := some 10, updatedAt := none }

/-- A concrete embedder: the Paris fact lands near `berlinRec`, everything
else far away. -/
def parisEmbed : String → Embedding := fun t => if t = parisText then [1] else [9]

/-- A store holding only `berlinRec`. -/
def berlinStore : VStore := { records := [berlinRec], nextId := 0, now := 500 }

/-- The decision action of the end-to-end update scenario. -/
def updateParisAction : MemoryAction :=
  { id := "0", text := parisText, action := .UPDATE }

/-- What `berlinRec` looks like in the store after the update scenario. -/
def berlinUpdated : EmbeddingResult :=
  { id := "m1", embedding := [1], content := parisText, metadata := [],
    createdAt := some 10, updatedAt := some 500 }

/-- An ADD action (its reference field is ignored by the engine). -/
def addActionX : MemoryAction := { id := "hi", text := "x", action := .ADD }

/-- An UPDATE action whose reference was never issued in the scenarios
below (only temporary id `0` is). -/
def updateAction7 : MemoryAction := { id := "7", text := "y", action := .UPDATE }

/-- A DELETE action referencing temporary id `0`. -/
def deleteAction0 : MemoryAction := { id := "0", text := "z", action := .DELETE }

/-- A constant embedder for simple witnesses. -/
def embedNine : String → Embedding := fun _ => [9]

/-- An ADD action used by the empty-facts counterexample. -/
def addActionHello : MemoryAction := { id := "", text := "hello", action := .ADD }

/-- An empty store. -/
def emptyStore : VStore := { records := [], nextId := 0, now := 1 }

/-- An identifier matching no record of `berlinStore`. -/
def absentId : String := "zzz"

/-- A cache key used by the C8 witness. -/
def keyT : String := "t"

/-- A store with the same records as `berlinStore` but a different clock
and identifier supply (search results coincide). -/
def berlinStoreLater : VStore := { records := [berlinRec], nextId := 7, now := 999 }

/-- The record created by applying `addActionX` to `berlinStore`. -/
def addedXRec : EmbeddingResult :=
  { id := "uuid-0", embedding := [9], content := "x", metadata := [],
    createdAt := some 500, updatedAt := none }

/-- The state of `berlinStore` after applying `addActionX`. -/
def berlinStoreAfterAdd : VStore :=
  { records := [berlinRec, addedXRec], nextId := 1, now := 500 }

/-- A one-entry embedding cache. -/
def cacheT : List (String × Embedding) := [(keyT, [2])]

/-! ## Definitional unfolding lemmas

Projection-level equations for the engine's let-destructured definitions;
each is definitional, relying on structure eta. -/

theorem retrieveOldMemory_cons (dist : Embedding → Embedding → ℤ) (embed : String → Embedding)
    (s : VStore) (f : String) (rest : List String) :
    retrieveOldMemory dist embed s (f :: rest) =
      ((f, embed f) :: (retrieveOldMemory dist embed s rest).1,
       vSearch dist s (embed f) 5 1 ++ (retrieveOldMemory dist embed s rest).2) := rfl

theorem applyActions_nil (embed : String → Embedding) (cache : List (String × Embedding))
    (tempIds : List (String × String)) (s : VStore) (acc : List EmbeddingResult) :
    applyActions embed cache tempIds s acc [] = (s, acc, false) := rfl

theorem applyActions_ADD (embed : String → Embedding) (cache : List (String × Embedding))
    (tempIds : List (String × String)) (s : VStore) (acc : List EmbeddingResult)
    (a : MemoryAction) (rest : List MemoryAction) (h : a.action = UpdateMemoryAction.ADD) :
    applyActions embed cache tempIds s acc (a :: rest) =
      applyActions embed cache tempIds (addMemory embed cache a.text none s).2.1
        (acc ++ (addMemory embed cache a.text none s).1) rest := by
  cases a with
  | mk i t act => cases h; rfl

theorem applyActions_UPDATE (embed : String → Embedding) (cache : List (String × Embedding))
    (tempIds : List (String × String)) (s : VStore) (acc : List EmbeddingResult)
    (a : MemoryAction) (rest : List MemoryAction) (h : a.action = UpdateMemoryAction.UPDATE) :
    applyActions embed cache tempIds s acc (a :: rest) =
      (match (updateMemory embed cache (tempIds.lookup a.id) a.text [] s).1 with
       | none => ((updateMemory embed cache (tempIds.lookup a.id) a.text [] s).2.1, acc, true)
       | some memory =>
          applyActions embed cache tempIds
            (updateMemory embed cache (tempIds.lookup a.id) a.text [] s).2.1
            (acc ++ [memory]) rest) := by
  cases a with
  | mk i t act =>
    cases h
    rcases hu : updateMemory embed cache (List.lookup i tempIds) t [] s with ⟨o, s', b⟩
    simp only [applyActions, hu]
    cases o <;> rfl

theorem applyActions_DELETE (embed : String → Embedding) (cache : List (String × Embedding))
    (tempIds : List (String × String)) (s : VStore) (acc : List EmbeddingResult)
    (a : MemoryAction) (rest : List MemoryAction) (h : a.action = UpdateMemoryAction.DELETE) :
    applyActions embed cache tempIds s acc (a :: rest) =
      applyActions embed cache tempIds (vDelete s (tempIds.lookup a.id)) acc rest := by
  cases a with
  | mk i t act => cases h; rfl

theorem applyActions_NONE (embed : String → Embedding) (cache : List (String × Embedding))
    (tempIds : List (String × String)) (s : VStore) (acc : List EmbeddingResult)
    (a : MemoryAction) (rest : List MemoryAction) (h : a.action = UpdateMemoryAction.NONE) :
    applyActions embed cache tempIds s acc (a :: rest) =
      applyActions embed cache tempIds s acc rest := by
  cases a with
  | mk i t act => cases h; rfl

theorem add_proj (dist : Embedding → Embedding → ℤ) (embed : String → Embedding)
    (facts : List String) (acts : List MemoryAction) (s : VStore) :
    MemoryStore.add dist embed facts acts s =
      { request := { newRetrievedFacts := facts
                     oldMemory := remapIds (retrieveOldMemory dist embed s facts).2 }
        retrievedOldMemory := (retrieveOldMemory dist embed s facts).2
        tempIds := tempIdMappings (retrieveOldMemory dist embed s facts).2
        returnedMemories := (applyActions embed (retrieveOldMemory dist embed s facts).1
          (tempIdMappings (retrieveOldMemory dist embed s facts).2) s [] acts).2.1
        store := (applyActions embed (retrieveOldMemory dist embed s facts).1
          (tempIdMappings (retrieveOldMemory dist embed s facts).2) s [] acts).1
        errored := (applyActions embed (retrieveOldMemory dist embed s facts).1
          (tempIdMappings (retrieveOldMemory dist embed s facts).2) s [] acts).2.2 } := rfl

/-! ## Claim theorems -/

/-- C10: `MemoryStore.list` with an `{offset, limit}` props object returns
exactly the records of listing with that limit and no offset: the props
object is forwarded to `vector.list`, which reads only its `cursor` and
`limit` properties, and the forwarded object has no `cursor`, so the
offset value has no effect on the result. -/
theorem c10_list_offset_has_no_effect (s : VStore) (off off' lim : ℕ) :
    MemoryStore.list s (some (off, lim)) = MemoryStore.list s (some (off', lim)) ∧
    MemoryStore.list s (some (off, lim)) = vList s none (some lim) :=
  ⟨rfl, rfl⟩

/-- C5 counterexample: with an empty fact list the decision request is
indeed empty, but the code applies whatever actions the Decision Service
returns; if it returns an ADD action, the store is mutated and the result
list is non-empty, refuting the unconditional claim. -/
theorem c5_counterexample :
    (MemoryStore.add euclideanDistanceSq embedNine [] [addActionHello] emptyStore).request =
      { newRetrievedFacts := [], oldMemory := [] } ∧
    (MemoryStore.add euclideanDistanceSq embedNine [] [addActionHello] emptyStore).returnedMemories ≠ [] ∧
    (MemoryStore.add euclideanDistanceSq embedNine [] [addActionHello] emptyStore).store ≠ emptyStore := by
  decide

/-- C5 (amended): when the Extraction Service returns an empty fact list,
`add` sends the Decision Service an empty request (no facts, empty
candidate set); and when the Decision Service then returns an empty action
list, `add` returns an empty result list, leaves the store unchanged, and
raises no error. -/
theorem c5_empty_facts_empty_request (dist : Embedding → Embedding → ℤ)
    (embed : String → Embedding) (actions : List MemoryAction) (s : VStore) :
    (MemoryStore.add dist embed [] actions s).request =
      { newRetrievedFacts := [], oldMemory := [] } ∧
    (MemoryStore.add dist embed [] [] s).returnedMemories = [] ∧
    (MemoryStore.add dist embed [] [] s).store = s ∧
    (MemoryStore.add dist embed [] [] s).errored = false :=
  ⟨rfl, rfl, rfl, rfl⟩

/-- C7: the store's delete is total (the model is a total function, no
error path) and idempotent; deleting an identifier that matches no stored
record — including an identifier that arrived unresolved (`none`) — leaves
the store unchanged; and a DELETE action inside `add` recurses on the rest
of the action list without appending anything to the accumulated result
list. -/
theorem c7_delete_idempotent_total (s : VStore) (i : String) :
    ((∀ r ∈ s.records, r.id ≠ i) → vDelete s (some i) = s) ∧
    vDelete s none = s ∧
    vDelete (vDelete s (some i)) (some i) = vDelete s (some i) ∧
    (∀ embed cache tempIds acc a rest, MemoryAction.action a = UpdateMemoryAction.DELETE →
      applyActions embed cache tempIds s acc (a :: rest) =
        applyActions embed cache tempIds (vDelete s (tempIds.lookup a.id)) acc rest) := by
  refine ⟨?_, rfl, ?_, ?_⟩
  · intro h
    have hf : s.records.find? (fun r => r.id == i) = none := by
      rw [List.find?_eq_none]
      intro r hr
      simpa using h r hr
    simp [vDelete, hf]
  · cases hf : s.records.find? (fun r => r.id == i) with
    | none => simp [vDelete, hf]
    | some r =>
      have hf2 : (s.records.filter fun r => !(r.id == i)).find?
          (fun r => r.id == i) = none := by
        rw [List.find?_eq_none]
        intro x hx
        have := List.of_mem_filter hx
        simpa using this
      simp [vDelete, hf, hf2]
  · intro embed cache tempIds acc a rest ha
    cases a with
    | mk aid atext aaction =>
      cases aaction <;> simp_all [applyActions]

/-- C7 witness: deleting the absent identifier from the concrete store
leaves it unchanged. -/
theorem c7_witness : vDelete berlinStore (some absentId) = berlinStore :=
  (c7_delete_idempotent_total berlinStore absentId).1 (by decide)

/-- C8: when applying an ADD or UPDATE action the engine calls the
Embedding Provider for the action's text exactly when that text is not a
key of the call-scoped embedding cache (for UPDATE: provided the reference
resolved, i.e. the action is actually applied); and the cache built during
candidate retrieval is keyed by exactly the extracted facts, so text that
matches a previously embedded fact reuses the cached embedding without a
new provider call. -/
theorem c8_embed_iff_cache_miss (embed : String → Embedding)
    (cache : List (String × Embedding)) (text : String) (metadata : Option Metadata)
    (md : Metadata) (mid : Option String) (s : VStore) :
    ((addMemory embed cache text metadata s).2.2 = true ↔ cache.lookup text = none) ∧
    ((vGet s mid).isSome = true →
      ((updateMemory embed cache mid text md s).2.2 = true ↔ cache.lookup text = none)) ∧
    (∀ dist facts, (retrieveOldMemory dist embed s facts).1.map Prod.fst = facts) := by
  refine ⟨?_, ?_, ?_⟩
  · simp [addMemory, Option.isNone_iff_eq_none]
  · intro h
    cases mid with
    | none => simp [vGet] at h
    | some m =>
      cases hg : vGet s (some m) with
      | none => rw [hg] at h; simp at h
      | some r =>
        simp only [updateMemory, hg]
        split <;> simp [Option.isNone_iff_eq_none]
  · intro dist facts
    induction facts with
    | nil => rfl
    | cons f rest ih => simp [retrieveOldMemory, ih]

/-- C8 witness: at the concrete cache, updating with the cached text makes
no embedder call. -/
theorem c8_witness :
    (updateMemory embedNine cacheT (some (berlinRec.id)) keyT [] berlinStore).2.2 = true ↔
      cacheT.lookup keyT = none :=
  (c8_embed_iff_cache_miss embedNine cacheT keyT none [] (some (berlinRec.id))
    berlinStore).2.1 (by decide)

/-- Helper: the retrieval loop yields equal candidate lists when the two
runs see the same ordered search results for each fact. -/
theorem retrieveOldMemory_snd_eq (dist₁ dist₂ : Embedding → Embedding → ℤ)
    (embed₁ embed₂ : String → Embedding) (s₁ s₂ : VStore) (facts : List String)
    (h : ∀ f ∈ facts, vSearch dist₁ s₁ (embed₁ f) 5 1 = vSearch dist₂ s₂ (embed₂ f) 5 1) :
    (retrieveOldMemory dist₁ embed₁ s₁ facts).2 =
      (retrieveOldMemory dist₂ embed₂ s₂ facts).2 := by
  induction facts with
  | nil => rfl
  | cons f rest ih =>
    rw [retrieveOldMemory_cons, retrieveOldMemory_cons]
    dsimp only
    rw [h f (List.mem_cons_self f rest), ih fun g hg => h g (List.mem_cons_of_mem f hg)]

/-- C6: temporary-identifier assignment is deterministic. Two runs of
`add` over the same ordered fact list that observe, fact by fact, the same
ordered search results — even with different stores, metrics, embedders,
or decision responses — build identical temporary-identifier maps. -/
theorem c6_temp_id_assignment_deterministic (dist₁ dist₂ : Embedding → Embedding → ℤ)
    (embed₁ embed₂ : String → Embedding) (facts : List String)
    (acts₁ acts₂ : List MemoryAction) (s₁ s₂ : VStore)
    (h : ∀ f ∈ facts, vSearch dist₁ s₁ (embed₁ f) 5 1 = vSearch dist₂ s₂ (embed₂ f) 5 1) :
    (MemoryStore.add dist₁ embed₁ facts acts₁ s₁).tempIds =
      (MemoryStore.add dist₂ embed₂ facts acts₂ s₂).tempIds := by
  rw [add_proj, add_proj]
  dsimp only
  rw [retrieveOldMemory_snd_eq dist₁ dist₂ embed₁ embed₂ s₁ s₂ facts h]

/-- C6 witness: two runs against stores with the same records but
different clocks and id supplies, and different decision responses, build
the same temporary-identifier map. -/
theorem c6_witness :
    (MemoryStore.add euclideanDistanceSq parisEmbed [parisText] [] berlinStore).tempIds =
      (MemoryStore.add euclideanDistanceSq parisEmbed [parisText] [deleteAction0]
        berlinStoreLater).tempIds :=
  c6_temp_id_assignment_deterministic euclideanDistanceSq euclideanDistanceSq
    parisEmbed parisEmbed [parisText] [] [deleteAction0] berlinStore berlinStoreLater
    (by decide)

/-- Helper: when a prefix of the action list applies without the NotFound
error, the loop on the concatenation runs the suffix from the state and
accumulator the prefix reached. -/
theorem applyActions_append_of_ok (embed : String → Embedding)
    (cache : List (String × Embedding)) (tempIds : List (String × String))
    (pre post : List MemoryAction) :
    ∀ (s s₁ : VStore) (acc acc₁ : List EmbeddingResult),
      applyActions embed cache tempIds s acc pre = (s₁, acc₁, false) →
      applyActions embed cache tempIds s acc (pre ++ post) =
        applyActions embed cache tempIds s₁ acc₁ post := by
  induction pre with
  | nil =>
    intro s s₁ acc acc₁ h
    rw [applyActions_nil] at h
    simp only [Prod.mk.injEq] at h
    obtain ⟨h1, h2, -⟩ := h
    subst h1
    subst h2
    rw [List.nil_append]
  | cons a rest ih =>
    intro s s₁ acc acc₁ h
    rw [List.cons_append]
    cases ha : a.action with
    | ADD =>
      rw [applyActions_ADD embed cache tempIds s acc a rest ha] at h
      rw [applyActions_ADD embed cache tempIds s acc a (rest ++ post) ha]
      exact ih _ _ _ _ h
    | UPDATE =>
      rw [applyActions_UPDATE embed cache tempIds s acc a rest ha] at h
      rw [applyActions_UPDATE embed cache tempIds s acc a (rest ++ post) ha]
      cases ho : (updateMemory embed cache (tempIds.lookup a.id) a.text [] s).1 with
      | none =>
        rw [ho] at h
        simp at h
      | some memory =>
        rw [ho] at h
        dsimp only at h ⊢
        exact ih _ _ _ _ h
    | DELETE =>
      rw [applyActions_DELETE embed cache tempIds s acc a rest ha] at h
      rw [applyActions_DELETE embed cache tempIds s acc a (rest ++ post) ha]
      exact ih _ _ _ _ h
    | NONE =>
      rw [applyActions_NONE embed cache tempIds s acc a rest ha] at h
      rw [applyActions_NONE embed cache tempIds s acc a (rest ++ post) ha]
      exact ih _ _ _ _ h

/-- C2: when the Decision Service's action list is a clean prefix, then an
UPDATE whose reference is not a key of the call's temporary-identifier
map, then anything: `add` ends with the NotFound-class error
(`Error("Memory not found")`), the actions after the UPDATE are never
applied (the final store is exactly the state the prefix reached), and
every mutation of the prefix remains applied — no rollback (the result
accumulated by the prefix is also untouched). -/
theorem c2_unmapped_update_halts_no_rollback (dist : Embedding → Embedding → ℤ)
    (embed : String → Embedding) (facts : List String) (pre post : List MemoryAction)
    (u : MemoryAction) (s s₁ : VStore) (acc₁ : List EmbeddingResult)
    (hu : u.action = UpdateMemoryAction.UPDATE)
    (hmiss : ((MemoryStore.add dist embed facts (pre ++ u :: post) s).tempIds).lookup u.id =
      none)
    (hpre : applyActions embed (retrieveOldMemory dist embed s facts).1
      (tempIdMappings (retrieveOldMemory dist embed s facts).2) s [] pre = (s₁, acc₁, false)) :
    (MemoryStore.add dist embed facts (pre ++ u :: post) s).errored = true ∧
    (MemoryStore.add dist embed facts (pre ++ u :: post) s).store = s₁ ∧
    (MemoryStore.add dist embed facts (pre ++ u :: post) s).returnedMemories = acc₁ := by
  have hmiss2 : ((tempIdMappings (retrieveOldMemory dist embed s facts).2).lookup u.id) =
      none := hmiss
  have hsplit := applyActions_append_of_ok embed (retrieveOldMemory dist embed s facts).1
    (tempIdMappings (retrieveOldMemory dist embed s facts).2) pre (u :: post) s s₁ [] acc₁ hpre
  have hstep := applyActions_UPDATE embed (retrieveOldMemory dist embed s facts).1
    (tempIdMappings (retrieveOldMemory dist embed s facts).2) s₁ acc₁ u post hu
  rw [hmiss2] at hstep
  have humem : updateMemory embed (retrieveOldMemory dist embed s facts).1 none u.text [] s₁ =
      (none, s₁, false) := rfl
  rw [humem] at hstep
  have hmain : applyActions embed (retrieveOldMemory dist embed s facts).1
      (tempIdMappings (retrieveOldMemory dist embed s facts).2) s []
      (pre ++ u :: post) = (s₁, acc₁, true) := by
    rw [hsplit, hstep]
  refine ⟨?_, ?_, ?_⟩
  · show (applyActions embed (retrieveOldMemory dist embed s facts).1
      (tempIdMappings (retrieveOldMemory dist embed s facts).2) s []
      (pre ++ u :: post)).2.2 = true
    rw [hmain]
  · show (applyActions embed (retrieveOldMemory dist embed s facts).1
      (tempIdMappings (retrieveOldMemory dist embed s facts).2) s []
      (pre ++ u :: post)).1 = s₁
    rw [hmain]
  · show (applyActions embed (retrieveOldMemory dist embed s facts).1
      (tempIdMappings (retrieveOldMemory dist embed s facts).2) s []
      (pre ++ u :: post)).2.1 = acc₁
    rw [hmain]

/-- C2 witness: the concrete scenario — an ADD, then an UPDATE with the
never-issued reference `7`, then a DELETE. The ADD stays applied, the
DELETE is never reached, the call errors. -/
theorem c2_witness :
    (MemoryStore.add euclideanDistanceSq parisEmbed [parisText]
      ([addActionX] ++ updateAction7 :: [deleteAction0]) berlinStore).errored = true ∧
    (MemoryStore.add euclideanDistanceSq parisEmbed [parisText]
      ([addActionX] ++ updateAction7 :: [deleteAction0]) berlinStore).store =
        berlinStoreAfterAdd ∧
    (MemoryStore.add euclideanDistanceSq parisEmbed [parisText]
      ([addActionX] ++ updateAction7 :: [deleteAction0]) berlinStore).returnedMemories =
        [addedXRec] :=
  c2_unmapped_update_halts_no_rollback euclideanDistanceSq parisEmbed [parisText]
    [addActionX] [deleteAction0] updateAction7 berlinStore berlinStoreAfterAdd [addedXRec]
    (by decide) (by decide) (by decide)

/-! ## Injectivity of the decimal temporary-identifier keys

The engine keys its temporary-identifier map by `String(i)`; the Lean
counterpart is `toString i`, i.e. `Nat.repr`. Distinct indices get
distinct keys, which the lookup lemma below needs. -/

theorem digitChar_injOn : ∀ a, a < 10 → ∀ b, b < 10 →
    Nat.digitChar a = Nat.digitChar b → a = b := by decide

theorem toDigitsCore_eq_digits (f : ℕ) : ∀ (n : ℕ) (ds : List Char), n ≠ 0 → n < 10 ^ f →
    Nat.toDigitsCore 10 f n ds = ((Nat.digits 10 n).map Nat.digitChar).reverse ++ ds := by
  induction f with
  | zero =>
    intro n ds hn hlt
    simp at hlt
    omega
  | succ f ih =>
    intro n ds hn hlt
    have hdig : Nat.digits 10 n = n % 10 :: Nat.digits 10 (n / 10) :=
      Nat.digits_def' (by norm_num) (Nat.pos_of_ne_zero hn)
    by_cases hq : n / 10 = 0
    · rw [hdig, hq, Nat.digits_zero]
      simp [Nat.toDigitsCore, hq]
    · have hlt2 : n / 10 < 10 ^ f := by
        rw [Nat.div_lt_iff_lt_mul (by norm_num : (0:ℕ) < 10)]
        rw [pow_succ] at hlt
        exact hlt
      simp only [Nat.toDigitsCore, if_neg hq]
      rw [ih (n / 10) (Nat.digitChar (n % 10) :: ds) hq hlt2, hdig]
      simp

theorem toDigits_eq_digits (n : ℕ) (hn : n ≠ 0) :
    Nat.toDigits 10 n = ((Nat.digits 10 n).map Nat.digitChar).reverse := by
  have hlt : n < 10 ^ (n + 1) :=
    lt_of_lt_of_le (Nat.lt_pow_self (by norm_num) n)
      (Nat.pow_le_pow_right (by norm_num) (Nat.le_succ n))
  simpa using toDigitsCore_eq_digits (n + 1) n [] hn hlt

theorem map_digitChar_inj : ∀ l₁ l₂ : List ℕ,
    (∀ d ∈ l₁, d < 10) → (∀ d ∈ l₂, d < 10) →
    l₁.map Nat.digitChar = l₂.map Nat.digitChar → l₁ = l₂ := by
  intro l₁
  induction l₁ with
  | nil =>
    intro l₂ _ _ h
    cases l₂ with
    | nil => rfl
    | cons b t => simp at h
  | cons a t ih =>
    intro l₂ h₁ h₂ h
    cases l₂ with
    | nil => simp at h
    | cons b t₂ =>
      simp only [List.map_cons, List.cons.injEq] at h
      have ha := digitChar_injOn a (h₁ a (by simp)) b (h₂ b (by simp)) h.1
      rw [ha, ih t₂ (fun d hd => h₁ d (by simp [hd])) (fun d hd => h₂ d (by simp [hd])) h.2]

theorem natRepr_injective : Function.Injective Nat.repr := by
  intro m n h
  have hd : Nat.toDigits 10 m = Nat.toDigits 10 n := congrArg String.data h
  have hofd : ∀ k : ℕ, Nat.digits 10 k = [0] → k = 0 := by
    intro k hk
    have hk2 := Nat.ofDigits_digits 10 k
    rw [hk] at hk2
    simpa [Nat.ofDigits] using hk2.symm
  by_cases hm : m = 0 <;> by_cases hn : n = 0
  · rw [hm, hn]
  · exfalso
    rw [hm, toDigits_eq_digits n hn] at hd
    have hmap : (Nat.digits 10 n).map Nat.digitChar = [Nat.digitChar 0] := by
      have := congrArg List.reverse hd
      simpa using this.symm
    have : Nat.digits 10 n = [0] :=
      map_digitChar_inj _ _ (fun d hd2 => Nat.digits_lt_base (by norm_num) hd2)
        (by simp) hmap
    exact hn (hofd n this)
  · exfalso
    rw [hn, toDigits_eq_digits m hm] at hd
    have hmap : (Nat.digits 10 m).map Nat.digitChar = [Nat.digitChar 0] := by
      have := congrArg List.reverse hd
      simpa using this
    have : Nat.digits 10 m = [0] :=
      map_digitChar_inj _ _ (fun d hd2 => Nat.digits_lt_base (by norm_num) hd2)
        (by simp) hmap
    exact hm (hofd m this)
  · rw [toDigits_eq_digits m hm, toDigits_eq_digits n hn] at hd
    have h2 : (Nat.digits 10 m).map Nat.digitChar = (Nat.digits 10 n).map Nat.digitChar :=
      List.reverse_injective hd
    have h3 := map_digitChar_inj _ _
      (fun d hd2 => Nat.digits_lt_base (by norm_num) hd2)
      (fun d hd2 => Nat.digits_lt_base (by norm_num) hd2) h2
    have h4 := Nat.ofDigits_digits 10 m
    rw [h3, Nat.ofDigits_digits] at h4
    exact h4.symm

theorem natToString_injective (m n : ℕ) (h : toString m = toString n) : m = n :=
  natRepr_injective h

theorem lookup_enumFrom_map (l : List EmbeddingResult) :
    ∀ (k i : ℕ) (h : i < l.length),
      ((List.enumFrom k l).map fun p => (toString p.1, p.2.id)).lookup (toString (k + i)) =
        some (l.get ⟨i, h⟩).id := by
  induction l with
  | nil =>
    intro k i h
    simp at h
  | cons r t ih =>
    intro k i h
    cases i with
    | zero => simp [List.lookup]
    | succ j =>
      have hne : (toString (k + (j + 1)) == toString k) = false := by
        rw [beq_eq_false_iff_ne]
        intro he
        have := natToString_injective (k + (j + 1)) k he
        omega
      have hj : j < t.length := by simpa using Nat.lt_of_succ_lt_succ h
      have hrec := ih (k + 1) j hj
      rw [show k + 1 + j = k + (j + 1) by omega] at hrec
      simpa [List.lookup, hne] using hrec

theorem tempIdMappings_lookup (l : List EmbeddingResult) (i : ℕ) (h : i < l.length) :
    (tempIdMappings l).lookup (toString i) = some (l.get ⟨i, h⟩).id := by
  have := lookup_enumFrom_map l 0 i h
  simpa [tempIdMappings, List.enum] using this

theorem tempIdMappings_map_fst (l : List EmbeddingResult) :
    (tempIdMappings l).map Prod.fst = (List.range l.length).map (fun i => toString i) := by
  unfold tempIdMappings
  rw [List.map_map]
  have hcomp : (Prod.fst ∘ fun p : ℕ × EmbeddingResult => (toString p.1, p.2.id)) =
      ((fun i => toString i) ∘ Prod.fst) := rfl
  rw [hcomp, ← List.map_map, List.enum_map_fst]

theorem tempIdMappings_map_snd (l : List EmbeddingResult) :
    (tempIdMappings l).map Prod.snd = l.map EmbeddingResult.id := by
  unfold tempIdMappings
  rw [List.map_map]
  have hcomp : (Prod.snd ∘ fun p : ℕ × EmbeddingResult => (toString p.1, p.2.id)) =
      (EmbeddingResult.id ∘ Prod.snd) := rfl
  rw [hcomp, ← List.map_map, List.enum_map_snd]

theorem retrieveOldMemory_snd_flatten (dist : Embedding → Embedding → ℤ)
    (embed : String → Embedding) (s : VStore) (facts : List String) :
    (retrieveOldMemory dist embed s facts).2 =
      (facts.map fun f => vSearch dist s (embed f) 5 1).flatten := by
  induction facts with
  | nil => rfl
  | cons f rest ih =>
    rw [retrieveOldMemory_cons]
    dsimp only
    rw [ih]
    simp

/-- C3: within one `add` call the candidate set is the concatenation, in
extraction order, of each fact's search results in returned order, with no
deduplication; the temporary-identifier map's keys are exactly the decimal
strings of `0..k-1` in candidate order (`k` the candidate-set length), its
values the candidates' persisted identifiers in the same order; and the
key of each position `i` resolves, by lookup as the action loop performs
it, to candidate `i`'s persisted identifier — so a record retrieved twice
holds two distinct temporary identifiers, each independently resolvable. -/
theorem c3_candidate_set_and_temp_ids (dist : Embedding → Embedding → ℤ)
    (embed : String → Embedding) (facts : List String) (acts : List MemoryAction)
    (s : VStore) :
    (MemoryStore.add dist embed facts acts s).retrievedOldMemory =
      (facts.map fun f => vSearch dist s (embed f) 5 1).flatten ∧
    (MemoryStore.add dist embed facts acts s).tempIds.map Prod.fst =
      (List.range (MemoryStore.add dist embed facts acts s).retrievedOldMemory.length).map
        (fun i => toString i) ∧
    (MemoryStore.add dist embed facts acts s).tempIds.map Prod.snd =
      (MemoryStore.add dist embed facts acts s).retrievedOldMemory.map
        EmbeddingResult.id ∧
    ∀ i (h : i < (MemoryStore.add dist embed facts acts s).retrievedOldMemory.length),
      (MemoryStore.add dist embed facts acts s).tempIds.lookup (toString i) =
        some ((MemoryStore.add dist embed facts acts s).retrievedOldMemory.get ⟨i, h⟩).id := by
  rw [add_proj]
  dsimp only
  exact ⟨retrieveOldMemory_snd_flatten dist embed s facts,
    tempIdMappings_map_fst _, tempIdMappings_map_snd _,
    fun i h => tempIdMappings_lookup _ i h⟩

/-- C3 witness: two identical facts both retrieve the single stored
record; it occupies temporary identifiers `0` and `1`, and identifier `1`
still resolves to its persisted id. -/
theorem c3_witness :
    (MemoryStore.add euclideanDistanceSq parisEmbed [parisText, parisText] []
        berlinStore).tempIds.lookup (toString 1) =
      some (((MemoryStore.add euclideanDistanceSq parisEmbed [parisText, parisText] []
        berlinStore).retrievedOldMemory.get ⟨1, by decide⟩).id) :=
  (c3_candidate_set_and_temp_ids euclideanDistanceSq parisEmbed [parisText, parisText] []
    berlinStore).2.2.2 1 (by decide)

/-- Helper: every cache entry built by the retrieval loop holds the
embedder's value for its key, so resolving a text against the cache (with
the embedder as fallback) always yields the embedder's value. -/
theorem retrieveOldMemory_cache_getD (dist : Embedding → Embedding → ℤ)
    (embed : String → Embedding) (s : VStore) (facts : List String) (text : String) :
    (((retrieveOldMemory dist embed s facts).1.lookup text).getD (embed text)) =
      embed text := by
  induction facts with
  | nil => rfl
  | cons f rest ih =>
    rw [retrieveOldMemory_cons]
    dsimp only
    cases hb : text == f with
    | true =>
      have : text = f := eq_of_beq hb
      simp [List.lookup, hb, this]
    | false => simpa [List.lookup, hb] using ih

/-- Helper: `find?` by id commutes with mapping an id-preserving function
over the record list. -/
theorem find?_map_id_preserving (g : EmbeddingResult → EmbeddingResult)
    (hg : ∀ x, (g x).id = x.id) (l : List EmbeddingResult) (i : String) :
    (l.map g).find? (fun x => x.id == i) = (l.find? (fun x => x.id == i)).map g := by
  induction l with
  | nil => rfl
  | cons a t ih =>
    cases h : (a.id == i) with
    | true => simp [List.find?_cons, hg, h]
    | false => simp [List.find?_cons, hg, h, ih]

/-- Helper: the value of `updateMemory` when the target record is found:
the store's copy is rewritten in place (new content, embedding, metadata,
`updatedAt := now`) and the returned object is the update argument, which
carries no timestamps. -/
theorem updateMemory_of_found (embed : String → Embedding)
    (cache : List (String × Embedding)) (rid text : String) (s : VStore)
    (r : EmbeddingResult) (hfind : s.records.find? (fun x => x.id == rid) = some r) :
    updateMemory embed cache (some rid) text [] s =
      (some { id := rid, embedding := (cache.lookup text).getD (embed text),
              content := text, metadata := [], createdAt := none, updatedAt := none },
       { s with records := s.records.map fun x =>
          if x.id == rid then
            { x with content := text, embedding := (cache.lookup text).getD (embed text),
                     metadata := [], updatedAt := some s.now }
          else x },
       (cache.lookup text).isNone) := by
  unfold updateMemory vGet vUpdate
  dsimp only
  rw [hfind]

/-- C4 (amended): an `add` whose Decision response is a single UPDATE
action whose reference resolves through the call's temporary-identifier
map to an existing persisted record: afterwards the persisted record's
content is the action's text, its embedding is the embedder's value for
that text (cached or recomputed — the same value), its `updatedAt` is set
to the store clock, and no error is raised; the returned list is a single
entry carrying that record's identifier, the new content and the new
embedding — but no timestamp fields, because the store's update returns
its argument rather than the persisted record. -/
theorem c4_single_update_applies (dist : Embedding → Embedding → ℤ)
    (embed : String → Embedding) (facts : List String) (ref text : String)
    (s : VStore) (rid : String) (r : EmbeddingResult)
    (hlookup : ((MemoryStore.add dist embed facts
        [{ id := ref, text := text, action := .UPDATE }] s).tempIds).lookup ref = some rid)
    (hget : vGet s (some rid) = some r) :
    (MemoryStore.add dist embed facts
        [{ id := ref, text := text, action := .UPDATE }] s).errored = false ∧
    (MemoryStore.add dist embed facts
        [{ id := ref, text := text, action := .UPDATE }] s).returnedMemories =
      [{ id := rid, embedding := embed text, content := text, metadata := [],
         createdAt := none, updatedAt := none }] ∧
    vGet (MemoryStore.add dist embed facts
        [{ id := ref, text := text, action := .UPDATE }] s).store (some rid) =
      some { id := r.id, embedding := embed text, content := text, metadata := [],
             createdAt := r.createdAt, updatedAt := some s.now } := by
  have hcache := retrieveOldMemory_cache_getD dist embed s facts text
  have hfind : s.records.find? (fun x => x.id == rid) = some r := hget
  have hrid : (r.id == rid) = true :=
    @List.find?_some _ (fun x => x.id == rid) r s.records hfind
  have hupd := updateMemory_of_found embed (retrieveOldMemory dist embed s facts).1
    rid text s r hfind
  rw [hcache] at hupd
  have hlookup2 : (tempIdMappings (retrieveOldMemory dist embed s facts).2).lookup ref =
      some rid := hlookup
  have hstep := applyActions_UPDATE embed (retrieveOldMemory dist embed s facts).1
    (tempIdMappings (retrieveOldMemory dist embed s facts).2) s []
    { id := ref, text := text, action := .UPDATE } [] rfl
  dsimp only at hstep
  rw [hlookup2, hupd] at hstep
  dsimp only at hstep
  rw [applyActions_nil] at hstep
  have hmap := find?_map_id_preserving
    (fun x => if x.id == rid then
      { x with content := text, embedding := embed text,
               metadata := [], updatedAt := some s.now } else x)
    (fun x => by cases hx : (x.id == rid) <;> simp [hx]) s.records rid
  refine ⟨?_, ?_, ?_⟩
  · show (applyActions embed (retrieveOldMemory dist embed s facts).1
      (tempIdMappings (retrieveOldMemory dist embed s facts).2) s []
      [{ id := ref, text := text, action := .UPDATE }]).2.2 = false
    rw [hstep]
  · show (applyActions embed (retrieveOldMemory dist embed s facts).1
      (tempIdMappings (retrieveOldMemory dist embed s facts).2) s []
      [{ id := ref, text := text, action := .UPDATE }]).2.1 = _
    rw [hstep]
    simp
  · show vGet ((applyActions embed (retrieveOldMemory dist embed s facts).1
      (tempIdMappings (retrieveOldMemory dist embed s facts).2) s []
      [{ id := ref, text := text, action := .UPDATE }]).1) (some rid) = _
    rw [hstep]
    dsimp only [vGet]
    rw [hmap, hfind]
    simp [hrid]
    intro hc
    exact absurd (eq_of_beq hrid) hc

/-- C4 counterexample: in the end-to-end Paris/Berlin scenario the
persisted record is updated exactly as the claim says, and the returned
list has exactly one entry — but that entry is not the updated record:
it lacks the `createdAt`/`updatedAt` fields, because the store's update
returns its argument instead of the persisted document. -/
theorem c4_counterexample :
    vGet (MemoryStore.add euclideanDistanceSq parisEmbed [parisText] [updateParisAction]
        berlinStore).store (some berlinRec.id) = some berlinUpdated ∧
    (MemoryStore.add euclideanDistanceSq parisEmbed [parisText] [updateParisAction]
        berlinStore).returnedMemories.length = 1 ∧
    (MemoryStore.add euclideanDistanceSq parisEmbed [parisText] [updateParisAction]
        berlinStore).returnedMemories ≠ [berlinUpdated] := by
  decide

/-- C4 witness: the amended theorem applied to the concrete Paris/Berlin
scenario. -/
theorem c4_witness :
    (MemoryStore.add euclideanDistanceSq parisEmbed [parisText] [updateParisAction]
        berlinStore).errored = false ∧
    (MemoryStore.add euclideanDistanceSq parisEmbed [parisText] [updateParisAction]
        berlinStore).returnedMemories =
      [{ id := berlinRec.id, embedding := parisEmbed parisText, content := parisText,
         metadata := [], createdAt := none, updatedAt := none }] ∧
    vGet (MemoryStore.add euclideanDistanceSq parisEmbed [parisText] [updateParisAction]
        berlinStore).store (some berlinRec.id) = some berlinUpdated :=
  c4_single_update_applies euclideanDistanceSq parisEmbed [parisText]
    updateParisAction.id parisText berlinStore berlinRec.id berlinRec
    (by decide) (by decide)

/-! ## Search: closest-first within threshold, and permutation invariance -/

/-- Helper: every record produced by the search pipeline on a document
list is one of the documents, within the threshold. -/
theorem search_pipeline_mem (dist : Embedding → Embedding → ℤ) (q : Embedding)
    (topK : ℕ) (threshold : ℤ) (docs : List EmbeddingResult) (r : EmbeddingResult)
    (hr : r ∈ (((((docs.map fun doc => (doc, dist q doc.embedding)).filter
        fun x => decide (x.2 ≤ threshold)).insertionSort
        fun a b => b.2 ≤ a.2).reverse).take topK).map fun p => p.1) :
    r ∈ docs ∧ dist q r.embedding ≤ threshold := by
  obtain ⟨p, hp, rfl⟩ := List.mem_map.mp hr
  have hp2 : p ∈ ((docs.map fun doc => (doc, dist q doc.embedding)).filter
      fun x => decide (x.2 ≤ threshold)) := by
    have h1 := List.take_subset topK _ hp
    rw [List.mem_reverse] at h1
    exact (List.perm_insertionSort _ _).subset h1
  have hthr := List.of_mem_filter hp2
  obtain ⟨doc, hdoc, rfl⟩ := List.mem_map.mp (List.mem_of_mem_filter hp2)
  exact ⟨hdoc, by simpa using hthr⟩

/-- Helper: the search pipeline returns `min topK` (number of documents
within the threshold) records. -/
theorem search_pipeline_length (dist : Embedding → Embedding → ℤ) (q : Embedding)
    (topK : ℕ) (threshold : ℤ) (docs : List EmbeddingResult) :
    ((((((docs.map fun doc => (doc, dist q doc.embedding)).filter
        fun x => decide (x.2 ≤ threshold)).insertionSort
        fun a b => b.2 ≤ a.2).reverse).take topK).map fun p => p.1).length =
      min topK (docs.filter fun x => decide (dist q x.embedding ≤ threshold)).length := by
  rw [List.length_map, List.length_take, List.length_reverse, List.length_insertionSort,
    List.filter_map, List.length_map]
  rfl

/-- Helper: without truncation the search pipeline returns a permutation
of the documents within the threshold. -/
theorem search_pipeline_perm (dist : Embedding → Embedding → ℤ) (q : Embedding)
    (topK : ℕ) (threshold : ℤ) (docs : List EmbeddingResult)
    (hle : (docs.filter fun x => decide (dist q x.embedding ≤ threshold)).length ≤ topK) :
    ((((((docs.map fun doc => (doc, dist q doc.embedding)).filter
        fun x => decide (x.2 ≤ threshold)).insertionSort
        fun a b => b.2 ≤ a.2).reverse).take topK).map fun p => p.1).Perm
      (docs.filter fun x => decide (dist q x.embedding ≤ threshold)) := by
  have hlen : ((((docs.map fun doc => (doc, dist q doc.embedding)).filter
      fun x => decide (x.2 ≤ threshold)).insertionSort
      fun a b => b.2 ≤ a.2).reverse).length ≤ topK := by
    rw [List.length_reverse, List.length_insertionSort, List.filter_map, List.length_map]
    exact hle
  rw [List.take_of_length_le hlen]
  have hperm : ((((docs.map fun doc => (doc, dist q doc.embedding)).filter
      fun x => decide (x.2 ≤ threshold)).insertionSort
      fun a b => b.2 ≤ a.2).reverse).Perm
      ((docs.map fun doc => (doc, dist q doc.embedding)).filter
        fun x => decide (x.2 ≤ threshold)) :=
    (List.reverse_perm _).trans (List.perm_insertionSort _ _)
  have heq : (((docs.map fun doc => (doc, dist q doc.embedding)).filter
      fun x => decide (x.2 ≤ threshold)).map fun p => p.1) =
      docs.filter fun x => decide (dist q x.embedding ≤ threshold) := by
    rw [List.filter_map, List.map_map]
    have h1 : ((fun p : EmbeddingResult × ℤ => p.1) ∘ fun doc => (doc, dist q doc.embedding)) =
        fun doc : EmbeddingResult => doc := rfl
    rw [h1, List.map_id']
    rfl
  have hm := hperm.map fun p : EmbeddingResult × ℤ => p.1
  rwa [heq] at hm

/-- Helper: the search pipeline's output is ordered by non-decreasing
distance to the query. -/
theorem search_pipeline_pairwise (dist : Embedding → Embedding → ℤ) (q : Embedding)
    (topK : ℕ) (threshold : ℤ) (docs : List EmbeddingResult) :
    (((((docs.map fun doc => (doc, dist q doc.embedding)).filter
        fun x => decide (x.2 ≤ threshold)).insertionSort
        fun a b => b.2 ≤ a.2).reverse).take topK).map (fun p => p.1) |>.Pairwise
      (fun a b => dist q a.embedding ≤ dist q b.embedding) := by
  haveI : IsTotal (EmbeddingResult × ℤ) fun a b => b.2 ≤ a.2 := ⟨fun a b => le_total b.2 a.2⟩
  haveI : IsTrans (EmbeddingResult × ℤ) fun a b => b.2 ≤ a.2 :=
    ⟨fun a b c hab hbc => le_trans hbc hab⟩
  have hsorted : List.Sorted (fun a b : EmbeddingResult × ℤ => b.2 ≤ a.2)
      (((docs.map fun doc => (doc, dist q doc.embedding)).filter
        fun x => decide (x.2 ≤ threshold)).insertionSort fun a b => b.2 ≤ a.2) :=
    List.sorted_insertionSort _ _
  have hrev : ((((docs.map fun doc => (doc, dist q doc.embedding)).filter
      fun x => decide (x.2 ≤ threshold)).insertionSort
      fun a b => b.2 ≤ a.2).reverse).Pairwise fun a b => a.2 ≤ b.2 :=
    List.pairwise_reverse.mpr hsorted
  have htake := List.Pairwise.sublist (List.take_sublist topK _) hrev
  have hmf : ∀ p : EmbeddingResult × ℤ,
      p ∈ ((((docs.map fun doc => (doc, dist q doc.embedding)).filter
        fun x => decide (x.2 ≤ threshold)).insertionSort
        fun a b => b.2 ≤ a.2).reverse).take topK → p.2 = dist q p.1.embedding := by
    intro p hp
    have h1 := List.take_subset topK _ hp
    rw [List.mem_reverse] at h1
    have h2 := (List.perm_insertionSort _ _).subset h1
    obtain ⟨doc, _, rfl⟩ := List.mem_map.mp (List.mem_of_mem_filter h2)
    rfl
  rw [List.pairwise_map]
  refine htake.imp_of_mem ?_
  intro a b ha hb hab
  rw [← hmf a ha, ← hmf b hb]
  exact hab

/-- C1: the store's search returns exactly the records whose distance to
the query is within the threshold, up to `topK` of them: every returned
record is stored and within threshold, the returned count is the minimum
of `topK` and the number within threshold, without truncation the result
is exactly the within-threshold records, and the result is ordered
most-relevant-first — by non-decreasing distance, so a closer record
never appears after a farther one. (RxDB's
`sortByObjectNumberProperty("distance")` is the descending comparator
`(a, b) => b[prop] - a[prop]`; descending sort, `toReversed()`,
`slice(0, topK)` yields the closest `topK`, closest-first.) -/
theorem c1_search_within_threshold_closest_first (dist : Embedding → Embedding → ℤ)
    (q : Embedding) (topK : ℕ) (threshold : ℤ) (s : VStore) :
    (∀ r ∈ vSearch dist s q topK threshold,
      r ∈ s.records ∧ dist q r.embedding ≤ threshold) ∧
    (vSearch dist s q topK threshold).length =
      min topK (s.records.filter fun x => decide (dist q x.embedding ≤ threshold)).length ∧
    ((s.records.filter fun x => decide (dist q x.embedding ≤ threshold)).length ≤ topK →
      (vSearch dist s q topK threshold).Perm
        (s.records.filter fun x => decide (dist q x.embedding ≤ threshold))) ∧
    (vSearch dist s q topK threshold).Pairwise
      fun a b => dist q a.embedding ≤ dist q b.embedding := by
  have hdocs : (s.records.insertionSort fun a b => a.id ≤ b.id).Perm s.records :=
    List.perm_insertionSort _ _
  have hfeq : ((s.records.insertionSort fun a b => a.id ≤ b.id).filter
      fun x => decide (dist q x.embedding ≤ threshold)).Perm
      (s.records.filter fun x => decide (dist q x.embedding ≤ threshold)) :=
    hdocs.filter _
  refine ⟨?_, ?_, ?_, ?_⟩
  · intro r hr
    obtain ⟨hmem, hthr⟩ := search_pipeline_mem dist q topK threshold
      (s.records.insertionSort fun a b => a.id ≤ b.id) r hr
    exact ⟨hdocs.subset hmem, hthr⟩
  · exact (search_pipeline_length dist q topK threshold
      (s.records.insertionSort fun a b => a.id ≤ b.id)).trans (by rw [hfeq.length_eq])
  · intro hle
    have hle' : ((s.records.insertionSort fun a b => a.id ≤ b.id).filter
        fun x => decide (dist q x.embedding ≤ threshold)).length ≤ topK := by
      rw [hfeq.length_eq]
      exact hle
    exact (search_pipeline_perm dist q topK threshold
      (s.records.insertionSort fun a b => a.id ≤ b.id) hle').trans hfeq
  · exact search_pipeline_pairwise dist q topK threshold
      (s.records.insertionSort fun a b => a.id ≤ b.id)

/-- C1 witness: on the two-record store every in-threshold record is
returned (no truncation at `topK = 5`). -/
theorem c1_witness :
    (vSearch euclideanDistanceSq storeCloseFar [0] 5 1).Perm
      (storeCloseFar.records.filter
        fun x => decide (euclideanDistanceSq [0] x.embedding ≤ 1)) :=
  (c1_search_within_threshold_closest_first euclideanDistanceSq [0] 5 1
    storeCloseFar).2.2.1 (by decide)

/-- Helper: with pairwise-distinct ids the stable sort by id is a function
of the record multiset: permuted record lists sort to the same list. -/
theorem insertionSort_by_id_eq_of_perm (l₁ l₂ : List EmbeddingResult)
    (hperm : l₁.Perm l₂) (hnodup : (l₁.map EmbeddingResult.id).Nodup) :
    (l₁.insertionSort fun a b => a.id ≤ b.id) =
      (l₂.insertionSort fun a b => a.id ≤ b.id) := by
  haveI : IsTotal EmbeddingResult fun a b => a.id ≤ b.id := ⟨fun a b => le_total a.id b.id⟩
  haveI : IsTrans EmbeddingResult fun a b => a.id ≤ b.id :=
    ⟨fun a b c hab hbc => le_trans hab hbc⟩
  haveI : IsAntisymm EmbeddingResult fun a b => a.id < b.id ∨ a = b := by
    constructor
    intro a b hab hba
    rcases hab with h1 | h1
    · rcases hba with h2 | h2
      · exact absurd h1 (lt_asymm h2)
      · exact h2.symm
    · exact h1
  have hstrict : ∀ l : List EmbeddingResult, (l.map EmbeddingResult.id).Nodup →
      (l.insertionSort fun a b => a.id ≤ b.id).Pairwise fun a b => a.id < b.id ∨ a = b := by
    intro l hnd
    have hsorted : List.Sorted (fun a b : EmbeddingResult => a.id ≤ b.id)
        (l.insertionSort fun a b => a.id ≤ b.id) := List.sorted_insertionSort _ _
    have hnd2 : ((l.insertionSort fun a b => a.id ≤ b.id).map EmbeddingResult.id).Nodup :=
      (((List.perm_insertionSort _ l).map EmbeddingResult.id).nodup_iff).mpr hnd
    have hne : (l.insertionSort fun a b => a.id ≤ b.id).Pairwise
        fun a b => a.id ≠ b.id := List.pairwise_map.mp hnd2
    exact (hsorted.and hne).imp fun h => Or.inl (lt_of_le_of_ne h.1 h.2)
  have hp : (l₁.insertionSort fun a b => a.id ≤ b.id).Perm
      (l₂.insertionSort fun a b => a.id ≤ b.id) :=
    ((List.perm_insertionSort _ l₁).trans hperm).trans (List.perm_insertionSort _ l₂).symm
  exact List.eq_of_perm_of_sorted hp (hstrict l₁ hnodup)
    (hstrict l₂ (((hperm.map EmbeddingResult.id)).nodup_iff.mp hnodup))

/-- C9: for a fixed threshold (and any `topK`) the search output is
invariant under permutation of the stored records: the scan reads the
documents in primary-key order (RxDB normalizes the sort-less query with
`sort: [{id: 'asc'}]`), so under the store's primary-key-uniqueness
invariant the whole result list — in particular which records are
included — is a function of the record set alone, and two stores holding
permutations of the same records return the very same list. -/
theorem c9_search_invariant_under_reordering (dist : Embedding → Embedding → ℤ)
    (q : Embedding) (topK : ℕ) (threshold : ℤ) (s t : VStore)
    (hperm : s.records.Perm t.records)
    (hnodup : (s.records.map EmbeddingResult.id).Nodup) :
    vSearch dist s q topK threshold = vSearch dist t q topK threshold := by
  have hdocs := insertionSort_by_id_eq_of_perm s.records t.records hperm hnodup
  simp only [vSearch, hdocs]

/-- C9 witness: the two-record store in either insertion order yields the
same search result. -/
theorem c9_reordering_witness :
    vSearch euclideanDistanceSq storeTieAB [0] 1 1 =
      vSearch euclideanDistanceSq storeTieBA [0] 1 1 :=
  c9_search_invariant_under_reordering euclideanDistanceSq [0] 1 1 storeTieAB storeTieBA
    (by decide) (by decide)

end VectorMemory
